import Mathlib

/-!
Verification of the RAGBench core (semantic chunker and retrieval scorer).

The JavaScript sources are shallowly embedded:
* evaluate.js scoring helpers (isRelevant, calculateMRR, calculateDocMRR,
  calculateRecallAtK, calculatePrecisionAtK, aggregateMetrics, groupMetrics)
  become functions over lists and rational numbers;
* lib/utils.js (cosineSimilarity, semanticChunkWithLimits) becomes functions
  over real-valued vectors, with JavaScript non-finite division results
  modelled explicitly by an extra constructor (NaN, Infinity).
External collaborators (the sentence segmenter, the tokenizer and the
embedding provider) are parameters of the embedded functions.
-/

namespace RagBench

/-- Result of a JavaScript floating-point division: either an ordinary value
or one of the non-finite outcomes NaN (0/0), Infinity and -Infinity. -/
inductive JsVal (α : Type) where
  | num (x : α) : JsVal α
  | nan : JsVal α
  | posInf : JsVal α
  | negInf : JsVal α
  deriving DecidableEq, Repr

/-- JavaScript division over the rationals: x / 0 is NaN when x = 0 and
a signed infinity otherwise; every other division is exact. -/
def jsDivQ (x y : ℚ) : JsVal ℚ :=
  if y = 0 then (if x = 0 then .nan else if 0 < x then .posInf else .negInf)
  else .num (x / y)

/- ----------------------------------------------------------------- -/
/- Scorer: per-query metrics (evaluate.js)                           -/
/- ----------------------------------------------------------------- -/

/-- Payload carried by a retrieved point: document and section identifiers
(evaluate.js reads result.payload.doc_id and result.payload.section_id). -/
structure Payload where
  doc_id : String
  section_id : Int
  deriving DecidableEq, Repr

/-- One ranked search result, as consumed by the metric functions. -/
structure RetrievedItem where
  payload : Payload
  deriving DecidableEq, Repr

/-- Ground-truth relevance judgment for one query (a qrel). -/
structure Qrel where
  doc_id : String
  section_id : Int
  deriving DecidableEq, Repr

/-- Embeds isRelevant: exact match on doc_id and section_id. -/
def isRelevant (result : RetrievedItem) (qrel : Qrel) : Bool :=
  decide (result.payload.doc_id = qrel.doc_id) &&
    decide (result.payload.section_id = qrel.section_id)

/-- Embeds isDocumentMatch: match on doc_id only. -/
def isDocumentMatch (result : RetrievedItem) (qrel : Qrel) : Bool :=
  decide (result.payload.doc_id = qrel.doc_id)

/-- Loop of calculateMRR: scan the results from 0-based index i, returning
1/(i+1) at the first exact match and 0 if none is found. -/
def mrrFrom (qrel : Qrel) : List RetrievedItem → ℕ → ℚ
  | [], _ => 0
  | r :: rs, i => if isRelevant r qrel then 1 / (i + 1) else mrrFrom qrel rs (i + 1)

/-- Embeds calculateMRR. -/
def calculateMRR (results : List RetrievedItem) (qrel : Qrel) : ℚ :=
  mrrFrom qrel results 0

/-- Loop of calculateDocMRR: like mrrFrom but with document-level matching. -/
def docMrrFrom (qrel : Qrel) : List RetrievedItem → ℕ → ℚ
  | [], _ => 0
  | r :: rs, i => if isDocumentMatch r qrel then 1 / (i + 1) else docMrrFrom qrel rs (i + 1)

/-- Embeds calculateDocMRR. -/
def calculateDocMRR (results : List RetrievedItem) (qrel : Qrel) : ℚ :=
  docMrrFrom qrel results 0

/-- Embeds calculateRecallAtK: 1 if an exact match occurs in the first k
results, else 0. -/
def calculateRecallAtK (results : List RetrievedItem) (qrel : Qrel) (k : ℕ) : ℚ :=
  if (results.take k).any (fun r => isRelevant r qrel) then 1 else 0

/-- Embeds calculatePrecisionAtK: the number of exact matches among the
first k results divided by the nominal k (JavaScript number division;
every call in the source uses a positive k). -/
def calculatePrecisionAtK (results : List RetrievedItem) (qrel : Qrel) (k : ℕ) : ℚ :=
  (((results.take k).filter (fun r => isRelevant r qrel)).length : ℚ) / (k : ℚ)

/-- Concrete results list used by the spec scenario: [{A,2},{A,5},{B,1}]. -/
def scenarioResults : List RetrievedItem :=
  [⟨⟨"A", 2⟩⟩, ⟨⟨"A", 5⟩⟩, ⟨⟨"B", 1⟩⟩]

/-- Concrete ground truth of the spec scenario: {A,5}. -/
def scenarioQrel : Qrel := ⟨"A", 5⟩

/-- C3: on results [{A,2},{A,5},{B,1}] with truth {A,5} the per-query metric
functions return mrr = 1/2, docMrr = 1, recall@1 = 0, recall@3 = 1,
precision@1 = 0 and precision@3 = 1/3. -/
theorem C3_concrete_scenario :
    calculateMRR scenarioResults scenarioQrel = 1 / 2 ∧
    calculateDocMRR scenarioResults scenarioQrel = 1 ∧
    calculateRecallAtK scenarioResults scenarioQrel 1 = 0 ∧
    calculateRecallAtK scenarioResults scenarioQrel 3 = 1 ∧
    calculatePrecisionAtK scenarioResults scenarioQrel 1 = 0 ∧
    calculatePrecisionAtK scenarioResults scenarioQrel 3 = 1 / 3 := by
  refine ⟨?_, ?_, ?_, ?_, ?_, ?_⟩ <;>
    norm_num [calculateMRR, calculateDocMRR, mrrFrom, docMrrFrom, isRelevant,
      isDocumentMatch, calculateRecallAtK, calculatePrecisionAtK,
      scenarioResults, scenarioQrel, List.take, List.filter, List.any]

/-- C8: when the results list is shorter than k, slice(0, k) returns the whole
list, so precision@k is the number of exact matches in the whole list divided
by the nominal k; with zero matches this is 0, not 0 divided by the length. -/
theorem C8_precision_short_list (results : List RetrievedItem) (qrel : Qrel) (k : ℕ)
    (h : results.length < k) :
    calculatePrecisionAtK results qrel k =
      ((results.filter (fun r => isRelevant r qrel)).length : ℚ) / (k : ℚ) ∧
    ((results.filter (fun r => isRelevant r qrel)).length = 0 →
      calculatePrecisionAtK results qrel k = 0) := by
  have htake : results.take k = results := List.take_of_length_le h.le
  constructor
  · simp [calculatePrecisionAtK, htake]
  · intro h0
    simp [calculatePrecisionAtK, htake, h0]

/-- Witness for C8: a one-element list with no match, evaluated at k = 3. -/
theorem C8_precision_short_list_witness :
    ([(⟨⟨"B", 1⟩⟩ : RetrievedItem)].length < 3) ∧
    calculatePrecisionAtK [⟨⟨"B", 1⟩⟩] ⟨"A", 5⟩ 3 = 0 := by
  refine ⟨by decide, ?_⟩
  exact (C8_precision_short_list [⟨⟨"B", 1⟩⟩] ⟨"A", 5⟩ 3 (by decide)).2 (by decide)

/-- An exact match is in particular a document-level match. -/
lemma isRelevant_imp_isDocumentMatch (r : RetrievedItem) (q : Qrel)
    (h : isRelevant r q = true) : isDocumentMatch r q = true := by
  simp only [isRelevant, Bool.and_eq_true, decide_eq_true_eq] at h
  simp [isDocumentMatch, h.1]

/-- The reciprocal-rank scan starting at index i never exceeds 1/(i+1). -/
lemma mrrFrom_le (qrel : Qrel) (rs : List RetrievedItem) :
    ∀ i : ℕ, mrrFrom qrel rs i ≤ 1 / ((i : ℚ) + 1) := by
  induction rs with
  | nil =>
    intro i
    simp only [mrrFrom]
    positivity
  | cons r rs ih =>
    intro i
    simp only [mrrFrom]
    by_cases hrel : isRelevant r qrel
    · simp [hrel]
    · simp only [hrel, if_false]
      calc mrrFrom qrel rs (i + 1) ≤ 1 / (((i + 1 : ℕ) : ℚ) + 1) := ih (i + 1)
        _ ≤ 1 / ((i : ℚ) + 1) := by
            apply one_div_le_one_div_of_le
            · positivity
            · push_cast
              linarith

/-- The document-level reciprocal-rank scan is nonnegative. -/
lemma docMrrFrom_nonneg (qrel : Qrel) (rs : List RetrievedItem) :
    ∀ i : ℕ, 0 ≤ docMrrFrom qrel rs i := by
  induction rs with
  | nil =>
    intro i
    simp [docMrrFrom]
  | cons r rs ih =>
    intro i
    simp only [docMrrFrom]
    by_cases hdoc : isDocumentMatch r qrel
    · simp only [hdoc, if_true]
      positivity
    · simp only [hdoc, if_false]
      exact ih (i + 1)

/-- Pointwise comparison of the two reciprocal-rank scans. -/
lemma mrrFrom_le_docMrrFrom (qrel : Qrel) (rs : List RetrievedItem) :
    ∀ i : ℕ, mrrFrom qrel rs i ≤ docMrrFrom qrel rs i := by
  induction rs with
  | nil =>
    intro i
    simp [mrrFrom, docMrrFrom]
  | cons r rs ih =>
    intro i
    simp only [mrrFrom, docMrrFrom]
    by_cases hrel : isRelevant r qrel
    · simp [hrel, isRelevant_imp_isDocumentMatch r qrel hrel]
    · simp only [hrel, if_false]
      by_cases hdoc : isDocumentMatch r qrel
      · simp only [hdoc, if_true]
        calc mrrFrom qrel rs (i + 1) ≤ 1 / (((i + 1 : ℕ) : ℚ) + 1) := mrrFrom_le qrel rs (i + 1)
          _ ≤ 1 / ((i : ℚ) + 1) := by
              apply one_div_le_one_div_of_le
              · positivity
              · push_cast
                linarith
      · simp only [hdoc, if_false]
        exact ih (i + 1)

/-- C9: document-level MRR dominates exact-match MRR, because every exact
match is also a document match, so the first document match occurs at a rank
no later than the first exact match. -/
theorem C9_docMrr_ge_mrr (results : List RetrievedItem) (qrel : Qrel) :
    calculateMRR results qrel ≤ calculateDocMRR results qrel :=
  mrrFrom_le_docMrrFrom qrel results 0

/- ----------------------------------------------------------------- -/
/- Scorer: aggregation and grouping (evaluate.js)                    -/
/- ----------------------------------------------------------------- -/

/-- The fixed set of scalar metrics computed for one query (the metrics
object built by evaluateQuery). -/
structure QueryMetrics where
  mrr : ℚ
  docMrr : ℚ
  ndcg : ℚ
  recall_at_1 : ℚ
  recall_at_3 : ℚ
  recall_at_5 : ℚ
  recall_at_10 : ℚ
  precision_at_1 : ℚ
  precision_at_3 : ℚ
  precision_at_5 : ℚ
  deriving DecidableEq, Repr

/-- Result of aggregateMetrics: each field is a JavaScript number, which is
NaN when the division 0/0 occurred (empty input). -/
structure AggregateMetrics where
  mrr : JsVal ℚ
  docMrr : JsVal ℚ
  ndcg : JsVal ℚ
  recall_at_1 : JsVal ℚ
  recall_at_3 : JsVal ℚ
  recall_at_5 : JsVal ℚ
  recall_at_10 : JsVal ℚ
  precision_at_1 : JsVal ℚ
  precision_at_3 : JsVal ℚ
  precision_at_5 : JsVal ℚ
  deriving DecidableEq, Repr

/-- Sum of one metric field over a list of evaluations (the accumulation
loop of aggregateMetrics, per field). -/
def fieldSum (evals : List QueryMetrics) (f : QueryMetrics → ℚ) : ℚ :=
  (evals.map f).sum

/-- Embeds aggregateMetrics: start every field at 0, add the field of every
evaluation, then divide each field by the number of evaluations using
JavaScript division (so an empty input divides 0 by 0). -/
def aggregateMetrics (evals : List QueryMetrics) : AggregateMetrics :=
  let count : ℚ := (evals.length : ℚ)
  { mrr := jsDivQ (fieldSum evals (·.mrr)) count
    docMrr := jsDivQ (fieldSum evals (·.docMrr)) count
    ndcg := jsDivQ (fieldSum evals (·.ndcg)) count
    recall_at_1 := jsDivQ (fieldSum evals (·.recall_at_1)) count
    recall_at_3 := jsDivQ (fieldSum evals (·.recall_at_3)) count
    recall_at_5 := jsDivQ (fieldSum evals (·.recall_at_5)) count
    recall_at_10 := jsDivQ (fieldSum evals (·.recall_at_10)) count
    precision_at_1 := jsDivQ (fieldSum evals (·.precision_at_1)) count
    precision_at_5 := jsDivQ (fieldSum evals (·.precision_at_5)) count
    precision_at_3 := jsDivQ (fieldSum evals (·.precision_at_3)) count }

/-- C4 counterexample: on the empty list, aggregateMetrics does not fail with
an EmptyInput error; it divides 0 by 0 for every field and returns a record
whose every field is NaN — exactly the NaN-like output the claim rules out. -/
theorem C4_counterexample_empty_is_nan :
    aggregateMetrics ([] : List QueryMetrics) =
      { mrr := .nan, docMrr := .nan, ndcg := .nan, recall_at_1 := .nan,
        recall_at_3 := .nan, recall_at_5 := .nan, recall_at_10 := .nan,
        precision_at_1 := .nan, precision_at_3 := .nan, precision_at_5 := .nan } ∧
    (aggregateMetrics ([] : List QueryMetrics)).mrr ≠ JsVal.num 0 := by
  constructor
  · simp [aggregateMetrics, fieldSum, jsDivQ]
  · simp [aggregateMetrics, fieldSum, jsDivQ]

/-- C4 (amended): for every non-empty list of per-query metrics, aggregation
returns the arithmetic mean of each metric field; for the empty list it
returns a record whose every field is NaN, raising no error. -/
theorem C4_aggregate_mean (evals : List QueryMetrics) (h : evals ≠ []) :
    aggregateMetrics evals =
      { mrr := .num (fieldSum evals (·.mrr) / (evals.length : ℚ))
        docMrr := .num (fieldSum evals (·.docMrr) / (evals.length : ℚ))
        ndcg := .num (fieldSum evals (·.ndcg) / (evals.length : ℚ))
        recall_at_1 := .num (fieldSum evals (·.recall_at_1) / (evals.length : ℚ))
        recall_at_3 := .num (fieldSum evals (·.recall_at_3) / (evals.length : ℚ))
        recall_at_5 := .num (fieldSum evals (·.recall_at_5) / (evals.length : ℚ))
        recall_at_10 := .num (fieldSum evals (·.recall_at_10) / (evals.length : ℚ))
        precision_at_1 := .num (fieldSum evals (·.precision_at_1) / (evals.length : ℚ))
        precision_at_3 := .num (fieldSum evals (·.precision_at_3) / (evals.length : ℚ))
        precision_at_5 := .num (fieldSum evals (·.precision_at_5) / (evals.length : ℚ)) } := by
  have hlen : ((evals.length : ℚ)) ≠ 0 := by
    have : evals.length ≠ 0 := by
      simpa [List.length_eq_zero] using h
    exact_mod_cast this
  simp [aggregateMetrics, jsDivQ, hlen]

/-- Witness for C4: aggregating two concrete single-metric records averages
each field; here the mrr fields 1 and 0 average to 1/2. -/
theorem C4_aggregate_mean_witness :
    ([(⟨1, 1, 1, 1, 1, 1, 1, 1, 1, 1⟩ : QueryMetrics), ⟨0, 0, 0, 0, 0, 0, 0, 0, 0, 0⟩] ≠
      ([] : List QueryMetrics)) ∧
    (aggregateMetrics [⟨1, 1, 1, 1, 1, 1, 1, 1, 1, 1⟩, ⟨0, 0, 0, 0, 0, 0, 0, 0, 0, 0⟩]).mrr =
      JsVal.num (1 / 2) := by
  constructor
  · simp
  · rw [C4_aggregate_mean [⟨1, 1, 1, 1, 1, 1, 1, 1, 1, 1⟩, ⟨0, 0, 0, 0, 0, 0, 0, 0, 0, 0⟩]
      (by simp)]
    norm_num [fieldSum]

/-- One per-query evaluation record as consumed by groupMetrics; queryType
and querySource may be absent or null (modelled by none). -/
structure Evaluation where
  queryType : Option String
  querySource : Option String
  metrics : QueryMetrics

/-- Embeds the JavaScript or-default idiom applied to the key fields:
undefined, null and the empty string are falsy and are replaced by the
string unknown. -/
def jsOrUnknown : Option String → String
  | none => "unknown"
  | some s => if s = "" then "unknown" else s

/-- Grouping key used for byType. -/
def typeKey (e : Evaluation) : String := jsOrUnknown e.queryType

/-- Grouping key used for bySource. -/
def sourceKey (e : Evaluation) : String := jsOrUnknown e.querySource

/-- Insert an evaluation into the bucket map: append it to the first bucket
whose key matches, or create a new bucket at the end (JavaScript objects
keep string keys in insertion order). -/
def addToGroup (m : List (String × List Evaluation)) (k : String) (e : Evaluation) :
    List (String × List Evaluation) :=
  match m with
  | [] => [(k, [e])]
  | (k1, l) :: rest =>
      if k1 = k then (k1, l ++ [e]) :: rest else (k1, l) :: addToGroup rest k e

/-- The bucket-building loop of groupMetrics for one key function. -/
def groupByKey (key : Evaluation → String) (evals : List Evaluation) :
    List (String × List Evaluation) :=
  evals.foldl (fun m e => addToGroup m (key e) e) []

/-- Embeds groupMetrics: bucket by type and by source, then report each
member count of each bucket together with its aggregated metrics. -/
def groupMetrics (evals : List Evaluation) :
    List (String × ℕ × AggregateMetrics) × List (String × ℕ × AggregateMetrics) :=
  ((groupByKey typeKey evals).map fun p =>
      (p.1, p.2.length, aggregateMetrics (p.2.map (·.metrics))),
   (groupByKey sourceKey evals).map fun p =>
      (p.1, p.2.length, aggregateMetrics (p.2.map (·.metrics))))

/-- Content of the bucket keyed k, empty when no such bucket exists. -/
def findGroup (m : List (String × List Evaluation)) (k : String) : List Evaluation :=
  match m with
  | [] => []
  | (k1, l) :: rest => if k1 = k then l else findGroup rest k

/-- Inserting under key k appends the evaluation to the bucket of key k. -/
lemma findGroup_addToGroup_self (m : List (String × List Evaluation)) (k : String)
    (e : Evaluation) : findGroup (addToGroup m k e) k = findGroup m k ++ [e] := by
  induction m with
  | nil => simp [addToGroup, findGroup]
  | cons p rest ih =>
    obtain ⟨k1, l⟩ := p
    by_cases hk : k1 = k
    · simp [addToGroup, findGroup, hk]
    · simp [addToGroup, findGroup, hk, ih]

/-- Inserting under key k leaves every other bucket unchanged. -/
lemma findGroup_addToGroup_other (m : List (String × List Evaluation)) (k k1 : String)
    (e : Evaluation) (h : k1 ≠ k) :
    findGroup (addToGroup m k e) k1 = findGroup m k1 := by
  induction m with
  | nil => simp [addToGroup, findGroup, Ne.symm h]
  | cons p rest ih =>
    obtain ⟨k2, l⟩ := p
    by_cases hk : k2 = k
    · have hne : k ≠ k1 := Ne.symm h
      simp [addToGroup, findGroup, hk, hne]
    · simp [addToGroup, findGroup, hk, ih]

/-- The keys present in the bucket map after an insertion. -/
lemma addToGroup_keys (m : List (String × List Evaluation)) (k : String) (e : Evaluation) :
    (addToGroup m k e).map Prod.fst =
      (if k ∈ m.map Prod.fst then m.map Prod.fst else m.map Prod.fst ++ [k]) := by
  induction m with
  | nil => simp [addToGroup]
  | cons p rest ih =>
    obtain ⟨k1, l⟩ := p
    by_cases hk : k1 = k
    · simp [addToGroup, hk]
    · have hne : k ≠ k1 := fun hh => hk hh.symm
      by_cases hmem : k ∈ rest.map Prod.fst
      · simp [addToGroup, hk, hmem, ih, hne]
      · simp [addToGroup, hk, hmem, ih, hne]

/-- Insertion preserves distinctness of the bucket keys. -/
lemma addToGroup_keys_nodup (m : List (String × List Evaluation)) (k : String)
    (e : Evaluation) (h : (m.map Prod.fst).Nodup) :
    ((addToGroup m k e).map Prod.fst).Nodup := by
  rw [addToGroup_keys]
  by_cases hmem : k ∈ m.map Prod.fst
  · simpa [hmem] using h
  · simp [hmem, List.nodup_append, h]

/-- In a bucket map with distinct keys, membership determines the bucket. -/
lemma findGroup_of_mem (m : List (String × List Evaluation)) (k : String)
    (l : List Evaluation) (hmem : (k, l) ∈ m) (hnd : (m.map Prod.fst).Nodup) :
    findGroup m k = l := by
  induction m with
  | nil => simp at hmem
  | cons p rest ih =>
    obtain ⟨k1, l1⟩ := p
    rcases List.mem_cons.mp hmem with heq | htail
    · obtain ⟨h1, h2⟩ := Prod.mk.injEq .. ▸ heq.symm
      simp [findGroup, h1.symm, h2]
    · have hk1 : k1 ≠ k := by
        rintro rfl
        have : k1 ∈ rest.map Prod.fst := by
          exact List.mem_map.mpr ⟨(k1, l), htail, rfl⟩
        simp [List.nodup_cons, this] at hnd
      have hnd1 : (rest.map Prod.fst).Nodup := by
        simp [List.nodup_cons] at hnd
        exact hnd.2
      simp [findGroup, hk1, ih htail hnd1]

/-- Invariant of the bucket-building fold: starting from a map whose buckets
are exactly the key-filtered slices of the already processed evaluations,
the fold extends it so the buckets are the slices of all evaluations. -/
lemma groupFold_inv (key : Evaluation → String) (evals : List Evaluation) :
    ∀ (m : List (String × List Evaluation)) (processed : List Evaluation),
      (∀ k, findGroup m k = processed.filter (fun e => key e = k)) →
      (m.map Prod.fst).Nodup →
      (∀ k, findGroup (evals.foldl (fun acc e => addToGroup acc (key e) e) m) k =
          (processed ++ evals).filter (fun e => key e = k)) ∧
        ((evals.foldl (fun acc e => addToGroup acc (key e) e) m).map Prod.fst).Nodup := by
  induction evals with
  | nil =>
    intro m processed hfind hnd
    simpa using ⟨hfind, hnd⟩
  | cons e evals ih =>
    intro m processed hfind hnd
    have hstep : ∀ k, findGroup (addToGroup m (key e) e) k =
        (processed ++ [e]).filter (fun x => key x = k) := by
      intro k
      by_cases hk : key e = k
      · subst hk
        rw [findGroup_addToGroup_self, hfind]
        simp
      · rw [findGroup_addToGroup_other m (key e) k e (fun hh => hk hh.symm), hfind]
        simp [hk]
    have hnd1 := addToGroup_keys_nodup m (key e) e hnd
    have := ih (addToGroup m (key e) e) (processed ++ [e]) hstep hnd1
    simpa using this

/-- Sum of bucket sizes grows by one at each insertion. -/
lemma addToGroup_size_sum (m : List (String × List Evaluation)) (k : String)
    (e : Evaluation) :
    ((addToGroup m k e).map (fun p => p.2.length)).sum =
      ((m.map (fun p => p.2.length)).sum) + 1 := by
  induction m with
  | nil => simp [addToGroup]
  | cons p rest ih =>
    obtain ⟨k1, l⟩ := p
    by_cases hk : k1 = k
    · simp [addToGroup, hk]
      omega
    · simp [addToGroup, hk, ih]
      omega

/-- Sum of bucket sizes after the fold counts every processed evaluation. -/
lemma groupFold_size_sum (key : Evaluation → String) (evals : List Evaluation) :
    ∀ m : List (String × List Evaluation),
      ((evals.foldl (fun acc e => addToGroup acc (key e) e) m).map
          (fun p => p.2.length)).sum =
        ((m.map (fun p => p.2.length)).sum) + evals.length := by
  induction evals with
  | nil => intro m; simp
  | cons e evals ih =>
    intro m
    simp only [List.foldl_cons, ih, addToGroup_size_sum, List.length_cons]
    omega

/-- Every bucket of groupByKey is exactly the key-filtered evaluation list. -/
lemma groupByKey_bucket (key : Evaluation → String) (evals : List Evaluation)
    (k : String) (l : List Evaluation) (hmem : (k, l) ∈ groupByKey key evals) :
    l = evals.filter (fun e => key e = k) := by
  have hinv := groupFold_inv key evals [] [] (by intro k; simp [findGroup]) (by simp)
  have hfg := findGroup_of_mem _ k l hmem hinv.2
  rw [← hfg]
  simpa [groupByKey] using hinv.1 k

/-- C10: a query type or source that is the empty string is grouped under
unknown exactly like an absent or null one; each bucket of a grouping holds
exactly the evaluations whose (falsy-defaulted) key equals the bucket key,
so every evaluation lands in exactly one bucket and the bucket counts of
each grouping sum to the total number of evaluations. -/
theorem C10_grouping_unknown_and_partition (evals : List Evaluation) :
    jsOrUnknown (some "") = "unknown" ∧
    jsOrUnknown none = "unknown" ∧
    (∀ k l, (k, l) ∈ groupByKey typeKey evals →
      l = evals.filter (fun e => typeKey e = k)) ∧
    (∀ k l, (k, l) ∈ groupByKey sourceKey evals →
      l = evals.filter (fun e => sourceKey e = k)) ∧
    ((groupByKey typeKey evals).map (fun p => p.2.length)).sum = evals.length ∧
    ((groupByKey sourceKey evals).map (fun p => p.2.length)).sum = evals.length := by
  refine ⟨rfl, rfl, ?_, ?_, ?_, ?_⟩
  · intro k l hmem
    exact groupByKey_bucket typeKey evals k l hmem
  · intro k l hmem
    exact groupByKey_bucket sourceKey evals k l hmem
  · simpa using groupFold_size_sum typeKey evals []
  · simpa using groupFold_size_sum sourceKey evals []

/- ----------------------------------------------------------------- -/
/- Chunker: cosine similarity and semantic chunking (lib/utils.js)   -/
/- ----------------------------------------------------------------- -/

/-- Dot product of two embedding vectors (the dot accumulator of
cosineSimilarity). -/
def dotProduct (a b : List ℝ) : ℝ :=
  ((a.zip b).map fun p => p.1 * p.2).sum

/-- Squared Euclidean norm of an embedding vector (the normA and normB
accumulators of cosineSimilarity). -/
def sqNorm (a : List ℝ) : ℝ :=
  (a.map fun x => x * x).sum

/-- JavaScript division over the reals, with the non-finite outcomes made
explicit: 0/0 is NaN, x/0 for nonzero x is a signed infinity. -/
noncomputable def jsDivR (x y : ℝ) : JsVal ℝ :=
  if y = 0 then (if x = 0 then .nan else if 0 < x then .posInf else .negInf)
  else .num (x / y)

/-- Embeds cosineSimilarity: dot(a,b) divided by the product of the square
roots of the squared norms, as a JavaScript division. -/
noncomputable def cosineSimilarity (a b : List ℝ) : JsVal ℝ :=
  jsDivR (dotProduct a b) (Real.sqrt (sqNorm a) * Real.sqrt (sqNorm b))

/-- JavaScript comparison of a possibly non-finite number with a plain
number: NaN compares false, Infinity is above and -Infinity below. -/
noncomputable def jsLtB : JsVal ℝ → ℝ → Bool
  | .num x, t => decide (x < t)
  | .nan, _ => false
  | .posInf, _ => false
  | .negInf, _ => true

/-- Options of semanticChunkWithLimits. -/
structure ChunkOptions where
  threshold : ℝ
  maxTokens : ℕ
  minTokens : ℕ

/-- Token count of a chunk: the sum of the token counts of its sentences. -/
def chunkTokens (tok : String → ℕ) (c : List String) : ℕ :=
  (c.map tok).sum

/-- Loop of semanticChunkWithLimits over the sentences not yet consumed,
each paired with its embedding. The state carries the embedding of the
immediately preceding sentence, the current sentence buffer (never empty
inside the loop), its running token count and the finished chunks. A split
happens when similarity drops below the threshold or the token cap would be
exceeded, but only once the buffer holds at least minTokens tokens. -/
noncomputable def chunkLoop (tok : String → ℕ) (opts : ChunkOptions) :
    List (String × List ℝ) → List ℝ → List String → ℕ → List (List String) →
      List (List String)
  | [], _, cur, _, chunks => chunks ++ [cur]
  | (sent, emb) :: rest, prevEmb, cur, curTok, chunks =>
    let sentTokens := tok sent
    let similarity := cosineSimilarity prevEmb emb
    let shouldSplit :=
      jsLtB similarity opts.threshold || decide (opts.maxTokens < curTok + sentTokens)
    if shouldSplit && decide (opts.minTokens ≤ curTok) then
      chunkLoop tok opts rest emb [sent] sentTokens (chunks ++ [cur])
    else
      chunkLoop tok opts rest emb (cur ++ [sent]) (curTok + sentTokens) chunks

/-- The arguments passed to the embedding function by
semanticChunkWithLimits: one call per segmented sentence, in order
(the Promise.all over sentences.map). -/
def sentenceEmbeddings (seg : String → List String)
    (embedFn : String → List ℝ) (text : String) : List (List ℝ) :=
  (seg text).map embedFn

/-- Embeds semanticChunkWithLimits, keeping each chunk as its sentence
buffer. The segmenter seg, the tokenizer tok and the embedding function
embedFn are the external collaborators of lib/utils.js. The first sentence
is pushed unconditionally (the empty-buffer branch, reachable only on the
first iteration); with no sentences the loop never runs and no chunk is
ever pushed. -/
noncomputable def chunkGroups (seg : String → List String) (tok : String → ℕ)
    (embedFn : String → List ℝ) (text : String) (opts : ChunkOptions) :
    List (List String) :=
  match seg text with
  | [] => []
  | s :: rest =>
      chunkLoop tok opts (rest.map fun t => (t, embedFn t)) (embedFn s) [s] (tok s) []

/-- Embeds semanticChunkWithLimits: the returned chunks are the sentence
buffers joined with single spaces. -/
noncomputable def semanticChunkWithLimits (seg : String → List String)
    (tok : String → ℕ) (embedFn : String → List ℝ) (text : String)
    (opts : ChunkOptions) : List String :=
  (chunkGroups seg tok embedFn text opts).map (String.intercalate " ")

/-- Squared norms are nonnegative. -/
lemma sqNorm_nonneg (a : List ℝ) : 0 ≤ sqNorm a := by
  apply List.sum_nonneg
  intro x hx
  obtain ⟨y, _, rfl⟩ := List.mem_map.mp hx
  exact mul_self_nonneg y

/-- A vector of squared norm zero is the zero vector. -/
lemma eq_zero_of_sqNorm_eq_zero (a : List ℝ) (h : sqNorm a = 0) :
    ∀ x ∈ a, x = 0 := by
  induction a with
  | nil => simp
  | cons y l ih =>
    have hy : 0 ≤ y * y := mul_self_nonneg y
    have hl : 0 ≤ sqNorm l := sqNorm_nonneg l
    have hsum : y * y + sqNorm l = 0 := by simpa [sqNorm] using h
    have hy0 : y = 0 := by
      have : y * y = 0 := by linarith
      exact mul_self_eq_zero.mp this
    have hl0 : sqNorm l = 0 := by linarith
    intro x hx
    rcases List.mem_cons.mp hx with rfl | hx
    · exact hy0
    · exact ih hl0 x hx

/-- A dot product with an all-zero left factor is zero. -/
lemma dotProduct_eq_zero_left (a b : List ℝ) (h : ∀ x ∈ a, x = 0) :
    dotProduct a b = 0 := by
  induction a generalizing b with
  | nil => simp [dotProduct]
  | cons x l ih =>
    cases b with
    | nil => simp [dotProduct]
    | cons y m =>
      have hx : x = 0 := h x (List.mem_cons_self x l)
      have hrest := ih m (fun z hz => h z (List.mem_cons_of_mem x hz))
      simp [dotProduct, hx] at hrest ⊢
      simpa [dotProduct] using hrest

/-- A dot product with an all-zero right factor is zero. -/
lemma dotProduct_eq_zero_right (a b : List ℝ) (h : ∀ x ∈ b, x = 0) :
    dotProduct a b = 0 := by
  induction a generalizing b with
  | nil => simp [dotProduct]
  | cons x l ih =>
    cases b with
    | nil => simp [dotProduct]
    | cons y m =>
      have hy : y = 0 := h y (List.mem_cons_self y m)
      have hrest := ih m (fun z hz => h z (List.mem_cons_of_mem y hz))
      simp [dotProduct, hy] at hrest ⊢
      simpa [dotProduct] using hrest

/-- C6 (amended): cosineSimilarity is dot(a,b) divided by the product of the
Euclidean norms whenever both norms are nonzero; when either vector has
zero norm the JavaScript division is 0/0, so the result is NaN, not 0. -/
theorem C6_cosine_similarity (a b : List ℝ) :
    (sqNorm a ≠ 0 → sqNorm b ≠ 0 →
      cosineSimilarity a b =
        JsVal.num (dotProduct a b /
          (Real.sqrt (sqNorm a) * Real.sqrt (sqNorm b)))) ∧
    (sqNorm a = 0 ∨ sqNorm b = 0 → cosineSimilarity a b = JsVal.nan) := by
  constructor
  · intro ha hb
    have hapos : 0 < sqNorm a := lt_of_le_of_ne (sqNorm_nonneg a) (Ne.symm ha)
    have hbpos : 0 < sqNorm b := lt_of_le_of_ne (sqNorm_nonneg b) (Ne.symm hb)
    have hdenom : 0 < Real.sqrt (sqNorm a) * Real.sqrt (sqNorm b) :=
      mul_pos (Real.sqrt_pos.mpr hapos) (Real.sqrt_pos.mpr hbpos)
    simp [cosineSimilarity, jsDivR, ne_of_gt hdenom]
  · intro hz
    have hdot : dotProduct a b = 0 := by
      rcases hz with ha | hb
      · exact dotProduct_eq_zero_left a b (eq_zero_of_sqNorm_eq_zero a ha)
      · exact dotProduct_eq_zero_right a b (eq_zero_of_sqNorm_eq_zero b hb)
    have hdenom : Real.sqrt (sqNorm a) * Real.sqrt (sqNorm b) = 0 := by
      rcases hz with ha | hb
      · simp [ha]
      · simp [hb]
    simp [cosineSimilarity, jsDivR, hdot, hdenom]

/-- Witness for C6: on the one-dimensional vectors [1] and [1] both squared
norms are 1, and the similarity is the ordinary quotient. -/
theorem C6_cosine_similarity_witness :
    sqNorm [(1 : ℝ)] ≠ 0 ∧
    cosineSimilarity [(1 : ℝ)] [(1 : ℝ)] =
      JsVal.num (dotProduct [(1 : ℝ)] [(1 : ℝ)] /
        (Real.sqrt (sqNorm [(1 : ℝ)]) * Real.sqrt (sqNorm [(1 : ℝ)]))) := by
  have h1 : sqNorm [(1 : ℝ)] ≠ 0 := by norm_num [sqNorm]
  exact ⟨h1, (C6_cosine_similarity [(1 : ℝ)] [(1 : ℝ)]).1 h1 h1⟩

/-- C6 counterexample: the zero vector [0] against [1] gives the division
0/0, whose JavaScript value is NaN and not the number 0. -/
theorem C6_counterexample_zero_norm_nan :
    sqNorm [(0 : ℝ)] = 0 ∧
    cosineSimilarity [(0 : ℝ)] [(1 : ℝ)] = JsVal.nan ∧
    JsVal.nan ≠ JsVal.num (0 : ℝ) := by
  refine ⟨by norm_num [sqNorm], ?_, by simp⟩
  simp [cosineSimilarity, jsDivR, dotProduct, sqNorm]

/-- Flattening the chunk buffers produced by the loop recovers the already
finished chunks, the current buffer and the sentences still to consume, in
that order. -/
lemma chunkLoop_flatten (tok : String → ℕ) (opts : ChunkOptions) :
    ∀ (rest : List (String × List ℝ)) (prevEmb : List ℝ) (cur : List String)
      (curTok : ℕ) (chunks : List (List String)),
      (chunkLoop tok opts rest prevEmb cur curTok chunks).flatten =
        chunks.flatten ++ cur ++ rest.map Prod.fst := by
  intro rest
  induction rest with
  | nil =>
    intro prevEmb cur curTok chunks
    simp [chunkLoop]
  | cons p rest ih =>
    intro prevEmb cur curTok chunks
    obtain ⟨sent, emb⟩ := p
    simp only [chunkLoop]
    by_cases hcond :
        ((jsLtB (cosineSimilarity prevEmb emb) opts.threshold ||
            decide (opts.maxTokens < curTok + tok sent)) &&
          decide (opts.minTokens ≤ curTok)) = true
    · rw [if_pos hcond, ih]
      simp
    · rw [if_neg hcond, ih]
      simp

/-- Flattening the chunks of one chunking call recovers exactly the sentence
sequence the segmenter produced. -/
lemma chunkGroups_flatten (seg : String → List String) (tok : String → ℕ)
    (embedFn : String → List ℝ) (text : String) (opts : ChunkOptions) :
    (chunkGroups seg tok embedFn text opts).flatten = seg text := by
  rcases hseg : seg text with _ | ⟨s, rest⟩
  · simp [chunkGroups, hseg]
  · simp [chunkGroups, hseg, chunkLoop_flatten, List.map_map, Function.comp_def]

/-- C2: the sentences of the returned chunks, in chunk order, are exactly the
sentence sequence produced by the segmenter, with no sentence dropped or
duplicated, and the returned strings are those buffers joined with spaces. -/
theorem C2_chunk_partition (seg : String → List String) (tok : String → ℕ)
    (embedFn : String → List ℝ) (text : String) (opts : ChunkOptions) :
    (chunkGroups seg tok embedFn text opts).flatten = seg text ∧
    semanticChunkWithLimits seg tok embedFn text opts =
      (chunkGroups seg tok embedFn text opts).map (String.intercalate " ") :=
  ⟨chunkGroups_flatten seg tok embedFn text opts, rfl⟩

/-- C7 (amended): whenever segmentation yields zero sentences the chunker
returns the empty sequence; there is no whole-input fallback chunk. -/
theorem C7_zero_sentences_empty (seg : String → List String) (tok : String → ℕ)
    (embedFn : String → List ℝ) (text : String) (opts : ChunkOptions)
    (h : seg text = []) :
    semanticChunkWithLimits seg tok embedFn text opts = [] := by
  simp [semanticChunkWithLimits, chunkGroups, h]

/-- Witness for C7: a segmenter returning no sentences on the nonempty
input makes the chunker return the empty sequence. -/
theorem C7_zero_sentences_empty_witness :
    (fun _ : String => ([] : List String)) "x" = [] ∧
    semanticChunkWithLimits (fun _ => []) (fun s => s.length) (fun _ => [(1 : ℝ)])
      "x" ⟨65 / 100, 500, 100⟩ = [] := by
  refine ⟨rfl, ?_⟩
  exact C7_zero_sentences_empty (fun _ => []) (fun s => s.length) (fun _ => [(1 : ℝ)])
    "x" ⟨65 / 100, 500, 100⟩ rfl

/-- C7 counterexample: on the nonempty, non-whitespace input x whose
segmentation yields zero sentences, the chunker returns the empty sequence,
not the whole input as a single chunk. -/
theorem C7_counterexample_no_fallback :
    "x" ≠ "" ∧
    "x".data = ['x'] ∧
    Char.isWhitespace 'x' = false ∧
    semanticChunkWithLimits (fun _ => []) (fun s => s.length) (fun _ => [(1 : ℝ)])
      "x" ⟨65 / 100, 500, 100⟩ = [] ∧
    ([] : List String) ≠ ["x"] := by
  refine ⟨by decide, by decide, by decide, ?_, by decide⟩
  simp [semanticChunkWithLimits, chunkGroups]

/-- C5 (amended): the chunker never validates the option combination; even
when minTokens exceeds maxTokens it calls the embedding function once per
segmented sentence and returns chunks normally, still partitioning the
sentence sequence. -/
theorem C5_no_configuration_check (seg : String → List String) (tok : String → ℕ)
    (embedFn : String → List ℝ) (text : String) (opts : ChunkOptions)
    (_h : opts.maxTokens < opts.minTokens) :
    sentenceEmbeddings seg embedFn text = (seg text).map embedFn ∧
    (chunkGroups seg tok embedFn text opts).flatten = seg text :=
  ⟨rfl, chunkGroups_flatten seg tok embedFn text opts⟩

/-- Witness for C5: options with minTokens 5 and maxTokens 1. -/
theorem C5_no_configuration_check_witness :
    ((⟨65 / 100, 1, 5⟩ : ChunkOptions).maxTokens <
      (⟨65 / 100, 1, 5⟩ : ChunkOptions).minTokens) ∧
    sentenceEmbeddings (fun _ => ["a", "bb"]) (fun _ => [(1 : ℝ)]) "ab" =
      ((fun _ : String => ["a", "bb"]) "ab").map (fun _ => [(1 : ℝ)]) ∧
    (chunkGroups (fun _ => ["a", "bb"]) (fun s => s.length) (fun _ => [(1 : ℝ)])
        "ab" ⟨65 / 100, 1, 5⟩).flatten = (fun _ : String => ["a", "bb"]) "ab" := by
  refine ⟨by decide, ?_, ?_⟩
  · exact (C5_no_configuration_check (fun _ => ["a", "bb"]) (fun s => s.length)
      (fun _ => [(1 : ℝ)]) "ab" ⟨65 / 100, 1, 5⟩ (by decide)).1
  · exact (C5_no_configuration_check (fun _ => ["a", "bb"]) (fun s => s.length)
      (fun _ => [(1 : ℝ)]) "ab" ⟨65 / 100, 1, 5⟩ (by decide)).2

/-- C5 counterexample: with minTokens 5 greater than maxTokens 1 the chunker
reports no configuration error: the embedding function is invoked on both
sentences and an ordinary chunk list is returned. -/
theorem C5_counterexample_no_error :
    ((⟨65 / 100, 1, 5⟩ : ChunkOptions).maxTokens <
      (⟨65 / 100, 1, 5⟩ : ChunkOptions).minTokens) ∧
    sentenceEmbeddings (fun _ => ["a", "bb"]) (fun _ => [(1 : ℝ)]) "ab" =
      [[1], [1]] ∧
    semanticChunkWithLimits (fun _ => ["a", "bb"]) (fun s => s.length)
      (fun _ => [(1 : ℝ)]) "ab" ⟨65 / 100, 1, 5⟩ = ["a bb"] := by
  refine ⟨by decide, by simp [sentenceEmbeddings], ?_⟩
  have h5 : ¬ ((5 : ℕ) ≤ "a".length) := by decide
  simp only [semanticChunkWithLimits, chunkGroups, chunkLoop]
  simp [h5]
  decide

/-- Invariant of the chunk loop: when every pending sentence has at most M
tokens, the running counter matches the buffer and every chunk so far obeys
the bound max maxTokens (minTokens - 1 + M), then every chunk produced obeys
that bound. A sentence joins a full buffer only while the counter is still
below minTokens, which caps the overflow at minTokens - 1 + M. -/
lemma chunkLoop_token_bound (tok : String → ℕ) (opts : ChunkOptions) (M : ℕ) :
    ∀ (rest : List (String × List ℝ)) (prevEmb : List ℝ) (cur : List String)
      (curTok : ℕ) (chunks : List (List String)),
      (∀ p ∈ rest, tok p.1 ≤ M) →
      curTok = chunkTokens tok cur →
      curTok ≤ max opts.maxTokens (opts.minTokens - 1 + M) →
      (∀ c ∈ chunks, chunkTokens tok c ≤ max opts.maxTokens (opts.minTokens - 1 + M)) →
      ∀ c ∈ chunkLoop tok opts rest prevEmb cur curTok chunks,
        chunkTokens tok c ≤ max opts.maxTokens (opts.minTokens - 1 + M) := by
  intro rest
  induction rest with
  | nil =>
    intro prevEmb cur curTok chunks hrest hcur hbound hchunks c hc
    simp only [chunkLoop] at hc
    rcases List.mem_append.mp hc with hmem | hmem
    · exact hchunks c hmem
    · have : c = cur := by simpa using hmem
      subst this
      exact hcur ▸ hbound
  | cons p rest ih =>
    intro prevEmb cur curTok chunks hrest hcur hbound hchunks c hc
    obtain ⟨sent, emb⟩ := p
    have hsent : tok sent ≤ M := hrest (sent, emb) (List.mem_cons_self _ _)
    have hrest2 : ∀ q ∈ rest, tok q.1 ≤ M :=
      fun q hq => hrest q (List.mem_cons_of_mem _ hq)
    have hMle : M ≤ max opts.maxTokens (opts.minTokens - 1 + M) :=
      le_trans (Nat.le_add_left M (opts.minTokens - 1)) (le_max_right _ _)
    simp only [chunkLoop] at hc
    by_cases hcond :
        ((jsLtB (cosineSimilarity prevEmb emb) opts.threshold ||
            decide (opts.maxTokens < curTok + tok sent)) &&
          decide (opts.minTokens ≤ curTok)) = true
    · rw [if_pos hcond] at hc
      refine ih emb [sent] (tok sent) (chunks ++ [cur]) hrest2 ?_ ?_ ?_ c hc
      · simp [chunkTokens]
      · exact le_trans hsent hMle
      · intro d hd
        rcases List.mem_append.mp hd with hmem | hmem
        · exact hchunks d hmem
        · have : d = cur := by simpa using hmem
          subst this
          exact hcur ▸ hbound
    · rw [if_neg hcond] at hc
      have hgrow : curTok + tok sent ≤ max opts.maxTokens (opts.minTokens - 1 + M) := by
        by_cases hmin : opts.minTokens ≤ curTok
        · have hsplit : (jsLtB (cosineSimilarity prevEmb emb) opts.threshold ||
              decide (opts.maxTokens < curTok + tok sent)) = false := by
            rcases Bool.eq_false_or_eq_true (jsLtB (cosineSimilarity prevEmb emb)
                opts.threshold || decide (opts.maxTokens < curTok + tok sent)) with ht | hf
            · exact absurd (by simp [ht, hmin]) hcond
            · exact hf
          have hcap : ¬ (opts.maxTokens < curTok + tok sent) := by
            have := (Bool.or_eq_false_iff.mp hsplit).2
            simpa using this
          exact le_trans (Nat.le_of_not_lt hcap) (le_max_left _ _)
        · have hlt : curTok < opts.minTokens := Nat.lt_of_not_le hmin
          have hle : curTok ≤ opts.minTokens - 1 := Nat.le_sub_one_of_lt hlt
          have : curTok + tok sent ≤ opts.minTokens - 1 + M :=
            Nat.add_le_add hle hsent
          exact le_trans this (le_max_right _ _)
      refine ih emb (cur ++ [sent]) (curTok + tok sent) chunks hrest2 ?_ hgrow hchunks c hc
      simp [chunkTokens, hcur]

/-- C1 (amended): with every sentence bounded by M tokens, every chunk has
at most max maxTokens (minTokens - 1 + M) tokens: a chunk can exceed
maxTokens not only as a single oversized sentence but also whenever the
sentence whose addition overflowed the cap arrived while the accumulated
count was still below minTokens (the minTokens guard suppresses the split);
a sentence is never split. -/
theorem C1_token_cap (seg : String → List String) (tok : String → ℕ)
    (embedFn : String → List ℝ) (text : String) (opts : ChunkOptions) (M : ℕ)
    (hM : ∀ s ∈ seg text, tok s ≤ M) :
    ∀ c ∈ chunkGroups seg tok embedFn text opts,
      chunkTokens tok c ≤ max opts.maxTokens (opts.minTokens - 1 + M) := by
  intro c hc
  rcases hseg : seg text with _ | ⟨s, rest⟩
  · simp [chunkGroups, hseg] at hc
  · rw [chunkGroups, hseg] at hc
    have hs : tok s ≤ M := hM s (hseg ▸ List.mem_cons_self _ _)
    have hMle : M ≤ max opts.maxTokens (opts.minTokens - 1 + M) :=
      le_trans (Nat.le_add_left M (opts.minTokens - 1)) (le_max_right _ _)
    refine chunkLoop_token_bound tok opts M (rest.map fun t => (t, embedFn t))
      (embedFn s) [s] (tok s) [] ?_ (by simp [chunkTokens]) (le_trans hs hMle)
      (by simp) c hc
    intro q hq
    obtain ⟨t, ht, rfl⟩ := List.mem_map.mp hq
    exact hM t (hseg ▸ List.mem_cons_of_mem _ ht)

/-- Witness for C1: two sentences of 1 and 2 tokens with minTokens and
maxTokens both 2; every produced chunk has at most max 2 3 = 3 tokens. -/
theorem C1_token_cap_witness :
    (∀ s ∈ (fun _ : String => ["a", "bb"]) "ab", (fun t : String => t.length) s ≤ 2) ∧
    (∀ c ∈ chunkGroups (fun _ => ["a", "bb"]) (fun t => t.length) (fun _ => [(1 : ℝ)])
        "ab" ⟨65 / 100, 2, 2⟩,
      chunkTokens (fun t => t.length) c ≤ max 2 (2 - 1 + 2)) := by
  refine ⟨by decide, ?_⟩
  exact C1_token_cap (fun _ => ["a", "bb"]) (fun t => t.length) (fun _ => [(1 : ℝ)])
    "ab" ⟨65 / 100, 2, 2⟩ 2 (by decide)

/-- C1 counterexample: with the valid options minTokens = maxTokens = 2 and
sentences of 1 and 2 tokens, the minTokens guard suppresses the split, so
the single returned chunk holds two sentences and 3 tokens, exceeding
maxTokens although it is not a single oversized sentence. -/
theorem C1_counterexample_cap_exceeded :
    ((⟨65 / 100, 2, 2⟩ : ChunkOptions).minTokens ≤
      (⟨65 / 100, 2, 2⟩ : ChunkOptions).maxTokens) ∧
    chunkGroups (fun _ => ["a", "bb"]) (fun t => t.length) (fun _ => [(1 : ℝ)])
      "ab" ⟨65 / 100, 2, 2⟩ = [["a", "bb"]] ∧
    chunkTokens (fun t => t.length) ["a", "bb"] = 3 ∧
    (⟨65 / 100, 2, 2⟩ : ChunkOptions).maxTokens < 3 ∧
    (["a", "bb"] : List String).length ≠ 1 := by
  refine ⟨by decide, ?_, by decide, by decide, by decide⟩
  have h2 : ¬ ((2 : ℕ) ≤ "a".length) := by decide
  simp only [chunkGroups, chunkLoop]
  simp [h2]

end RagBench
